import Mathlib

/-!
Verification of `mltsp/custom_feature_tools.py`.

This file gives a shallow embedding of the dependency-declaration parser,
validity check, wave scheduler/executor, invocation guard, isolated-execution
cleanup control flow, and `generate_custom_features` mutation logic of
`src/mltsp/custom_feature_tools.py`, and proves/refutes the specification
claims about them.

Python dictionaries are modelled as association lists with unique keys
(`Dict`), Python exceptions as an error type `PyErr` carried in `Except`,
and the user-supplied feature functions as an oracle parameter `impls`.
-/

set_option autoImplicit false

namespace CustomFeatureTools

/-- A Python `dict` keyed by strings, as an association list.  A well-formed
value has pairwise distinct keys; lookup finds the unique binding. -/
abbrev Dict (α : Type) := List (String × α)

namespace Dict

/-- Python `d[k] = v` on a dict: replace the binding in place if the key is
present (keeping its position), otherwise append the new binding at the end. -/
def insert {α : Type} (d : Dict α) (k : String) (v : α) : Dict α :=
  if (d.lookup k).isSome then
    d.map (fun p => if p.1 = k then (k, v) else p)
  else
    d ++ [(k, v)]

theorem lookup_append {α : Type} (k : String) (l₁ l₂ : Dict α) :
    (l₁ ++ l₂).lookup k = (l₁.lookup k).or (l₂.lookup k) := by
  induction l₁ with
  | nil => simp
  | cons p tl ih =>
    obtain ⟨a, b⟩ := p
    by_cases h : k = a
    · subst h
      simp [List.lookup_cons]
    · have hne : (k == a) = false := by simp [h]
      simp [List.lookup_cons, hne, ih]

theorem lookup_map_replace {α : Type} (d : Dict α) (k : String) (v : α) :
    (d.map (fun p => if p.1 = k then (k, v) else p)).lookup k =
      if (d.lookup k).isSome then some v else none := by
  induction d with
  | nil => simp
  | cons p tl ih =>
    obtain ⟨a, b⟩ := p
    by_cases h : a = k
    · subst h
      simp [List.lookup_cons]
    · have hne : (k == a) = false := by
        simp
        exact fun hk => h hk.symm
      simp only [List.map_cons, if_neg h, List.lookup_cons, hne, ih]

theorem lookup_map_replace_ne {α : Type} (d : Dict α) (k k' : String) (v : α)
    (h : k' ≠ k) :
    (d.map (fun p => if p.1 = k then (k, v) else p)).lookup k' =
      d.lookup k' := by
  induction d with
  | nil => simp
  | cons p tl ih =>
    obtain ⟨a, b⟩ := p
    by_cases ha : a = k
    · subst ha
      have hne : (k' == a) = false := by simp [h]
      simp [List.lookup_cons, hne, ih]
    · by_cases hk : k' = a
      · subst hk
        simp [List.lookup_cons, ha]
      · have hne : (k' == a) = false := by simp [hk]
        simp [List.lookup_cons, ha, hne, ih]

theorem lookup_insert_self {α : Type} (d : Dict α) (k : String) (v : α) :
    (d.insert k v).lookup k = some v := by
  unfold insert
  by_cases h : (d.lookup k).isSome
  · simp [lookup_map_replace, h]
  · rw [if_neg h, lookup_append]
    have hd : d.lookup k = none := Option.not_isSome_iff_eq_none.mp h
    simp [hd, List.lookup_cons]

theorem lookup_insert_ne {α : Type} (d : Dict α) (k k' : String) (v : α)
    (h : k' ≠ k) : (d.insert k v).lookup k' = d.lookup k' := by
  unfold insert
  by_cases hs : (d.lookup k).isSome
  · rw [if_pos hs]
    exact lookup_map_replace_ne d k k' v h
  · rw [if_neg hs, lookup_append]
    have hne : (k' == k) = false := by simp [h]
    simp [List.lookup_cons, hne]

end Dict

/-- Python `dict(list(a.items()) + list(b.items()))` (line 206-208): merge `b` into
`a`, a later binding overwriting an earlier one of the same key. -/
def dictExtend {α : Type} (d : Dict α) (items : List (String × α)) : Dict α :=
  items.foldl (fun acc p => acc.insert p.1 p.2) d

/-- Exceptions raised by the embedded code.  Each constructor carries the
name/expression the Python code formats into the exception message. -/
inductive PyErr where
  /-- Exception `MissingRequiredParameterError` (line 97): a required argument is
  absent from the call. -/
  | missingRequiredParameter (name : String)
  /-- Exception `MissingRequiredReturnKeyError` (line 103): a declared provided key is
  absent from the function's returned dict. -/
  | missingRequiredReturnKey (key : String)
  /-- The plain `Exception` of the validation loop (line 176): a required
  parameter is neither known nor provided; carries the one parameter named. -/
  | requiredParamNotProvided (name : String)
  /-- Exception `AttributeError` from `.named` on a failed `parse` result
  (lines 133-135): the annotation or def line did not match its template. -/
  | attributeError (msg : String)
  /-- Python `eval` of an annotation field raised; carries the offending
  expression text. -/
  | evalRaised (expr : String)
  /-- A generic I/O or environment failure (file missing, container crash,
  corrupt pickle, ...). -/
  | ioError (msg : String)
deriving Repr, DecidableEq

deriving instance DecidableEq for Except

/-- One `@myFeature(requires=..., provides=...)` declaration: the value
stored under the function's name in `fnames_req_prov_dict`. -/
structure UnitDecl where
  requires : List String
  provides : List String
deriving Repr, DecidableEq

/-- Function `wrapped_f` (lines 94-107), the Invocation Guard, for a call that passes
keyword arguments only (the scheduler always calls `funcname(**arguments)`,
line 204-205; the positional-argument check of the Python wrapper is then
vacuous).  Pre-call: every required name must be a key of `kwargs`, else
`MissingRequiredParameterError` on the first missing one.  Post-call: every
provided name must be a key of the returned dict, else
`MissingRequiredReturnKeyError` on the first missing one; otherwise the
returned dict is passed through unchanged. -/
def wrappedCall {α : Type} (req prov : List String) (f : Dict α → Dict α)
    (kwargs : Dict α) : Except PyErr (Dict α) :=
  match req.find? (fun r => (kwargs.lookup r).isNone) with
  | some r => .error (.missingRequiredParameter r)
  | none =>
    let result := f kwargs
    match prov.find? (fun p => (result.lookup p).isNone) with
    | some p => .error (.missingRequiredReturnKey p)
    | none => .ok result

/-- One iteration of the argument-assembly loop (lines 199-203):
`arguments[req] = features_already_known[req]` if the name is known, else
`arguments[req] = all_extracted_features[req]` if already extracted, else
the name is left out of `arguments`. -/
def buildArgsStep {α : Type} (known extracted : Dict α) (args : Dict α)
    (req : String) : Dict α :=
  match known.lookup req with
  | some v => args.insert req v
  | none =>
    match extracted.lookup req with
    | some v => args.insert req v
    | none => args

/-- Argument assembly (lines 198-203): starting from `arguments = {}`, run
`buildArgsStep` over the unit's required names in order. -/
def buildArgs {α : Type} (known extracted : Dict α) (reqs : List String) :
    Dict α :=
  reqs.foldl (buildArgsStep known extracted) []

/-- The mutable local state of the scheduling loop of
`call_custom_functions` (lines 180-210).  `currentRound` is the list
`func_rounds[str(i)]` of the round in progress; completed rounds are kept in
`funcRounds`. -/
structure SchedState (α : Type) where
  funcnames : List String
  reqCopy : List String
  extracted : Dict α
  funcQueue : List String
  funcRounds : List (List String)
  currentRound : List String
deriving Repr, DecidableEq

/-- All units executed so far, in execution order. -/
def traceOf {α : Type} (st : SchedState α) : List String :=
  st.funcRounds.flatten ++ st.currentRound

/-- The inner `for funcname in funcnames` loop of one round
(lines 188-209).  CPython iterates by index; `funcnames.remove(funcname)`
(line 209) removes the current element in place, so the element that slid
into the current position is skipped when the index advances.  A unit whose
`requires` still intersects `all_required_params_copy` is appended to the
(never consumed) `func_queue`; otherwise the unit is executed: its provides
are filtered out of `all_required_params_copy`, arguments are assembled,
the guarded function is called (an exception propagating out of the whole
scheduler), its result dict is merged into `all_extracted_features`, and the
unit is removed from `funcnames`. -/
def roundLoop {α : Type} (known : Dict α) (decls : String → UnitDecl)
    (impls : String → Dict α → Dict α) (i : Nat) (st : SchedState α) :
    Except PyErr (SchedState α) :=
  if h : i < st.funcnames.length then
    let f := st.funcnames[i]
    let reqs := (decls f).requires
    let provs := (decls f).provides
    if reqs.any (fun r => st.reqCopy.contains r) then
      roundLoop known decls impls (i + 1)
        { st with funcQueue := st.funcQueue ++ [f] }
    else
      match wrappedCall reqs provs (impls f)
          (buildArgs known st.extracted reqs) with
      | .error e => .error e
      | .ok res =>
        roundLoop known decls impls (i + 1)
          { funcnames := st.funcnames.erase f
            reqCopy := st.reqCopy.filter (fun x => ¬ provs.contains x)
            extracted := dictExtend st.extracted res
            funcQueue := st.funcQueue
            funcRounds := st.funcRounds
            currentRound := st.currentRound ++ [f] }
  else
    .ok st
termination_by st.funcnames.length - i
decreasing_by
  all_goals simp_wf
  · omega
  · have hm : st.funcnames[i] ∈ st.funcnames := List.getElem_mem h
    have := List.length_erase_of_mem hm
    omega

/-- The outer `while len(funcnames) > 0` loop (line 186-210), with explicit
fuel: `none` means the loop has not terminated within `fuel` rounds (the
Python loop has no bound and simply keeps running).  Each round starts a
fresh `func_rounds[str(i)] = []` entry (modelled by `currentRound`, which is
`[]` whenever this function is entered) and archives it at round end. -/
def schedLoop {α : Type} (known : Dict α) (decls : String → UnitDecl)
    (impls : String → Dict α → Dict α) :
    Nat → SchedState α → Option (Except PyErr (SchedState α))
  | 0, _ => none
  | fuel + 1, st =>
    if st.funcnames.isEmpty then
      some (.ok st)
    else
      match roundLoop known decls impls 0 st with
      | .error e => some (.error e)
      | .ok st' =>
        schedLoop known decls impls fuel
          { st' with
            funcRounds := st'.funcRounds ++ [st'.currentRound]
            currentRound := [] }

/-- Function `call_custom_functions` (lines 145-218), minus the module-import,
stdout-redirect and temp-file I/O, which do not affect the returned
features.  First the validation loop (lines 172-179): every element of
`all_required_params` not already known must occur in
`all_provided_params`, else a plain `Exception` naming the first offender.
Then the round-based scheduling loop; on success the final
`all_extracted_features` dict is returned. -/
def callCustomFunctions {α : Type} (fuel : Nat) (known : Dict α)
    (allRequiredParams allProvidedParams : List String)
    (funcnames : List String) (decls : String → UnitDecl)
    (impls : String → Dict α → Dict α) :
    Option (Except PyErr (Dict α)) :=
  let copy := allRequiredParams.filter (fun x => (known.lookup x).isNone)
  match copy.find? (fun p => !(allProvidedParams.contains p)) with
  | some p => some (.error (.requiredParamNotProvided p))
  | none =>
    match schedLoop known decls impls fuel ⟨funcnames, copy, [], [], [], []⟩ with
    | none => none
    | some (.error e) => some (.error e)
    | some (.ok st) => some (.ok st.extracted)

/-- Function `execute_functions_in_order` (lines 221-268), with the parse step taken
as input.  Line 264-266 passes `all_required_params` as BOTH the
`all_required_params` and the `all_provided_params` arguments of
`call_custom_functions`; the parsed `all_provided_params` is never
forwarded. -/
def executeFunctionsInOrder {α : Type} (fuel : Nat) (known : Dict α)
    (allRequiredParams _allProvidedParams : List String)
    (funcnames : List String) (decls : String → UnitDecl)
    (impls : String → Dict α → Dict α) :
    Option (Except PyErr (Dict α)) :=
  callCustomFunctions fuel known allRequiredParams allRequiredParams
    funcnames decls impls

/-! ## Declaration Extractor: `parse_for_req_prov_params` (lines 118-142)

String surgery is carried out on the character lists underlying the line
strings, so that every operation is primitive recursive. -/

/-- The whitespace characters stripped by Python's `str.strip()`. -/
def pyWhitespace (c : Char) : Bool :=
  c = ' ' || c = '\t' || c = '\n' || c = '\r' || c = '\x0b' || c = '\x0c'

/-- Python `line.strip()` on the underlying character list. -/
def pyStripChars (s : List Char) : List Char :=
  ((s.dropWhile pyWhitespace).reverse.dropWhile pyWhitespace).reverse

/-- Split at the first occurrence of `sep` (assumed non-empty): returns the
text before it and the text after it, or `none` when `sep` does not occur. -/
def splitOnce (sep : List Char) : List Char → Option (List Char × List Char)
  | [] => none
  | c :: rest =>
    if sep.isPrefixOf (c :: rest) then
      some ([], (c :: rest).drop sep.length)
    else
      match splitOnce sep rest with
      | some pr => some (c :: pr.1, pr.2)
      | none => none

/-- Python's substring test `sub in s`. -/
def pyContains (s sub : String) : Bool :=
  match sub.data with
  | [] => true
  | _ => (splitOnce sub.data s.data).isSome

/-- Template match `parse("@myFeature(requires={requires}, provides={provides})", line.strip())`
(lines 128-130).  The `parse` library anchors the template at both ends and
matches each `{field}` non-greedily against at least one character, so a
successful match yields `requires` = the text up to the first
`", provides="` and `provides` = the rest with the final `")"` removed.
`none` models the `parse` call returning `None` (no match). -/
def parseAnnotLine (line : String) : Option (String × String) :=
  let s := pyStripChars line.data
  if "@myFeature(requires=".data.isPrefixOf s && ")".data.isSuffixOf s then
    let t := s.drop "@myFeature(requires=".data.length
    let body := t.take (t.length - 1)
    match splitOnce ", provides=".data body with
    | none => none
    | some (r, p) =>
      if !r.isEmpty && !p.isEmpty then some (⟨r⟩, ⟨p⟩) else none
  else none

/-- Template match `parse("def {funcname}({args}):", line.strip())` (lines 131-132):
`funcname` = the text up to the first `"("`, `args` = the rest with the
final `"):"` removed; both must be non-empty.  Only the function name is
used by the caller. -/
def parseDefLine (line : String) : Option String :=
  let s := pyStripChars line.data
  if "def ".data.isPrefixOf s && "):".data.isSuffixOf s then
    let t := s.drop "def ".data.length
    let body := t.take (t.length - 2)
    match splitOnce "(".data body with
    | none => none
    | some (f, args) =>
      if !f.isEmpty && !args.isEmpty then some ⟨f⟩ else none
  else none

/-- Python `list(set(l))` (lines 136-141): deduplication; CPython's set iteration
order is unspecified and nothing downstream depends on the order, only on
membership. -/
def pyListSet (l : List String) : List String :=
  l.dedup

/-- The triple built by `parse_for_req_prov_params`:
`(fnames_req_prov_dict, all_required_params, all_provided_params)`. -/
structure ParseAcc where
  table : Dict UnitDecl
  allRequired : List String
  allProvided : List String
deriving Repr, DecidableEq

/-- The body of the extraction loop (lines 126-141) for one line pair
`(all_lines[i], all_lines[i+1])`.  The pair is processed only when the first
line contains `"@myFeature"` and the second contains `"def "`; otherwise it
is skipped without any effect.  When processed: a failed template match
raises `AttributeError` (`.named` on `None`); the `requires`/`provides`
field texts are passed to `eval` (the oracle `evalF`; `none` = the
evaluation raised); the declaration is stored by plain dict assignment
(replacing any earlier declaration of the same name) and the two derived
union lists are extended.  An error aborts the whole loop. -/
def parseStep (evalF : String → Option (List String))
    (acc : Except PyErr ParseAcc) (pair : String × String) :
    Except PyErr ParseAcc :=
  match acc with
  | .error e => .error e
  | .ok a =>
    if pyContains pair.1 "@myFeature" && pyContains pair.2 "def " then
      match parseAnnotLine pair.1 with
      | none => .error (.attributeError "NoneType has no attribute named")
      | some (r, p) =>
        match evalF r with
        | none => .error (.evalRaised r)
        | some reqs =>
          match evalF p with
          | none => .error (.evalRaised p)
          | some provs =>
            match parseDefLine pair.2 with
            | none => .error (.attributeError "NoneType has no attribute named")
            | some fname =>
              .ok { table := a.table.insert fname ⟨reqs, provs⟩
                    allRequired := pyListSet (a.allRequired ++ pyListSet reqs)
                    allProvided := pyListSet (a.allProvided ++ pyListSet provs) }
    else
      .ok a

/-- Function `parse_for_req_prov_params(script_fpath)` (lines 118-142) on the
script's lines (`readlines` output, one string per line), parameterised by
the behaviour `evalF` of Python `eval` on the extracted field expressions
(`some l` = evaluated to the string collection `l`, `none` = raised).  The
loop `for i in range(len(all_lines) - 1)` visits the consecutive pairs
`(all_lines[i], all_lines[i+1])`. -/
def parseForReqProvParams (lines : List String)
    (evalF : String → Option (List String)) : Except PyErr ParseAcc :=
  (lines.zip lines.tail).foldl (parseStep evalF) (.ok ⟨[], [], []⟩)

/-- Collect, from one line pair, the expression strings that extraction
pipes into `eval`: the `requires` and `provides` field texts of a matching
annotation on a processed pair. -/
def annotFieldsStep (acc : List String) (pair : String × String) :
    List String :=
  if pyContains pair.1 "@myFeature" && pyContains pair.2 "def " then
    match parseAnnotLine pair.1 with
    | none => acc
    | some (r, p) => acc ++ [r, p]
  else acc

/-- All expression strings that extraction pipes into `eval` over the whole
script. -/
def annotFields (lines : List String) : List String :=
  (lines.zip lines.tail).foldl annotFieldsStep []

/-! ## Isolated execution: `docker_extract_features` (lines 396-442) -/

/-- Function `remove_tmp_files` (lines 378-393): `shutil.rmtree(path,
ignore_errors=True)` plus best-effort `os.remove` of the shared temp-script
files, every failure swallowed.  On the abstract "does the staging
directory still exist" state it always yields `false` and never raises. -/
def removeTmpFiles (_dirExists : Bool) : Bool :=
  false

/-- Function `docker_extract_features(script_fpath, features_already_known)`
(lines 430-442), abstracted over the outcomes of its two effectful steps:
`copyData` is the outcome of `copy_data_to_tmp_dir` (line 433, NOT inside
the `try`), `extractFeats` the outcome of
`extract_feats_in_docker_container` (environment start/crash, result-file
retrieval and unpickling).  `make_tmp_dir` (line 431) creates the staging
directory.  The result pairs the final "staging directory still exists"
flag with the returned value or propagated exception; the `except: raise` /
`finally: remove_tmp_files(...)` block re-raises the original exception
after unconditional cleanup. -/
def dockerExtractFeatures {α : Type} (copyData : Except PyErr Unit)
    (extractFeats : Except PyErr (Dict α)) : Bool × Except PyErr (Dict α) :=
  let dirExists := true
  match copyData with
  | .error e => (dirExists, .error e)
  | .ok _ =>
    match extractFeats with
    | .error e => (removeTmpFiles dirExists, .error e)
    | .ok r => (removeTmpFiles dirExists, .ok r)

/-! ## `generate_custom_features` (lines 538-573) -/

/-- Lines 565-566: `if "t" not in features_already_known:
features_already_known['t'] = t`. -/
def gcfInsertT {α : Type} (t : α) (known : Dict α) : Dict α :=
  if (known.lookup "t").isNone then known.insert "t" t else known

/-- Lines 567-568: `if "m" not in features_already_known:
features_already_known['m'] = m`. -/
def gcfInsertM {α : Type} (m : α) (known : Dict α) : Dict α :=
  if (known.lookup "m").isNone then known.insert "m" m else known

/-- Lines 569-570: `if e is not None and len(e) == len(m) and "e" not in
features_already_known: features_already_known['e'] = e`.  `len` applies to
the `e` and `m` PARAMETERS, not to the dict entries. -/
def gcfInsertE {α : Type} (length : α → Nat) (e : Option α) (m : α)
    (known : Dict α) : Dict α :=
  match e with
  | some ev =>
    if length ev = length m ∧ (known.lookup "e").isNone then
      known.insert "e" ev
    else known
  | none => known

/-- One iteration of the loop at lines 571-573:
`if k in features_already_known: features_already_known[k] =
np.array(features_already_known[k])`. -/
def gcfArrayStep {α : Type} (npArray : α → α) (d : Dict α) (k : String) :
    Dict α :=
  match d.lookup k with
  | some v => d.insert k (npArray v)
  | none => d

/-- The in-place mutation `generate_custom_features` performs on the
`features_already_known` dict before dispatching (lines 565-573), with
`length` modelling Python `len` and `npArray` modelling `np.array`; the
returned dict is the caller's mapping after mutation (Python mutates it in
place through the caller's reference). -/
def generateCustomFeaturesMutate {α : Type} (length : α → Nat)
    (npArray : α → α) (t m : α) (e : Option α) (known : Dict α) : Dict α :=
  ["t", "m", "e"].foldl (gcfArrayStep npArray)
    (gcfInsertE length e m (gcfInsertM m (gcfInsertT t known)))

/-- Successive calls of `generate_custom_features` that all omit the
`features_already_known` argument share one default dict (a mutable default
argument, line 539); the mutations of each call accumulate in it.  The
shared dict starts empty and is threaded through the calls in order. -/
def generateCustomFeaturesSharedDefault {α : Type} (length : α → Nat)
    (npArray : α → α) (calls : List (α × α × Option α)) : Dict α :=
  calls.foldl
    (fun d c => generateCustomFeaturesMutate length npArray c.1 c.2.1 c.2.2 d)
    []

/-! ## Shared helper lemmas -/

theorem find?_eq_head_filter {α : Type} (p : α → Bool) (l : List α) :
    l.find? p = (l.filter p).head? := by
  induction l with
  | nil => rfl
  | cons a tl ih =>
    cases h : p a
    · rw [List.find?_cons_of_neg _ (by simp [h]),
        List.filter_cons_of_neg (by simp [h])]
      exact ih
    · rw [List.find?_cons_of_pos _ h, List.filter_cons_of_pos h]
      rfl

/-! ## Claim C5: Invocation Guard post-call contract -/

/-- C5: for a unit invoked through the Invocation Guard (with its required
arguments supplied, as the scheduler guarantees for the units it runs), if
the mapping returned by the unit's function contains every name in the
unit's `provides` list then that full mapping is returned unchanged; if it
lacks some provided name then `MissingRequiredReturnKeyError` is raised
naming a missing key, and no mapping at all is returned to the caller — in
the scheduler the merge into `all_extracted_features` (lines 206-208) sits
after the call, so nothing of the unit's output is merged when the guard
raises. -/
theorem invocation_guard_post_contract {α : Type} (req prov : List String)
    (f : Dict α → Dict α) (kwargs : Dict α)
    (hreq : ∀ r ∈ req, (kwargs.lookup r).isSome) :
    ((∀ p ∈ prov, ((f kwargs).lookup p).isSome) →
        wrappedCall req prov f kwargs = .ok (f kwargs)) ∧
    ((∃ p ∈ prov, ((f kwargs).lookup p).isNone) →
        ∃ p ∈ prov, ((f kwargs).lookup p).isNone ∧
          wrappedCall req prov f kwargs =
            .error (.missingRequiredReturnKey p)) := by
  have hnone : req.find? (fun r => (kwargs.lookup r).isNone) = none := by
    rw [List.find?_eq_none]
    intro r hr hcon
    rw [Option.isNone_iff_eq_none] at hcon
    exact Option.isSome_iff_ne_none.mp (hreq r hr) hcon
  constructor
  · intro hall
    have hpnone : prov.find? (fun p => ((f kwargs).lookup p).isNone) = none := by
      rw [List.find?_eq_none]
      intro p hp hcon
      rw [Option.isNone_iff_eq_none] at hcon
      exact Option.isSome_iff_ne_none.mp (hall p hp) hcon
    simp [wrappedCall, hnone, hpnone]
  · intro hex
    have hsome : (prov.find? (fun p => ((f kwargs).lookup p).isNone)).isSome := by
      rw [List.find?_isSome]
      obtain ⟨p, hp, hmiss⟩ := hex
      exact ⟨p, hp, hmiss⟩
    obtain ⟨q, hq⟩ := Option.isSome_iff_exists.mp hsome
    refine ⟨q, List.mem_of_find?_eq_some hq, ?_, ?_⟩
    · have hpq := List.find?_some hq
      exact hpq
    · simp [wrappedCall, hnone, hq]

/-- C5 witness: a concrete unit providing `"z"` and returning a dict
binding `"z"` to `2` passes the guard unchanged. -/
theorem invocation_guard_post_contract_witness :
    wrappedCall ["t"] ["z"] (fun _ => [("z", (2 : Int))]) [("t", (1 : Int))]
      = .ok [("z", 2)] :=
  (invocation_guard_post_contract ["t"] ["z"] _ _ (by decide)).1 (by decide)

/-! ## Claim C8: staging-directory cleanup -/

/-- C8 counterexample: on the exit path where staging itself fails
(`copy_data_to_tmp_dir`, line 433, raises — e.g. the script file is
missing), the staging directory created by `make_tmp_dir` (line 431) is NOT
deleted (the `try/finally` of lines 435-441 has not been entered), so the
claim "deleted at the end of the run on every exit path" is false; the
surfaced error is also the raw original exception — the code base defines
no `IsolatedExecutionError` at all. -/
theorem staging_dir_leaked_when_copy_fails :
    dockerExtractFeatures (.error (.ioError "no such file"))
      (.ok ([] : Dict Int)) = (true, .error (.ioError "no such file")) := rfl

/-- C8 amended: once staging (the copy step) has succeeded, the
`try/finally` guarantees the staging directory is deleted on every exit
path — environment crash, absent or corrupt result file included — with
cleanup failures swallowed (`ignore_errors=True`), and the original
exception propagates to the caller unchanged (a bare `raise`), never
wrapped and never masked by a cleanup failure. -/
theorem staging_cleanup_after_successful_copy {α : Type} :
    ∀ r : Except PyErr (Dict α),
      dockerExtractFeatures (.ok ()) r = (false, r) := by
  intro r
  cases r <;> rfl

/-! ## Error classification: only guard errors escape the scheduling loop -/

theorem wrappedCall_error_classified {α : Type} (req prov : List String)
    (f : Dict α → Dict α) (kwargs : Dict α) (e : PyErr)
    (h : wrappedCall req prov f kwargs = .error e) :
    (∃ n, e = .missingRequiredParameter n) ∨
      (∃ n, e = .missingRequiredReturnKey n) := by
  unfold wrappedCall at h
  cases hf : req.find? (fun r => (kwargs.lookup r).isNone) with
  | some r =>
    rw [hf] at h
    simp at h
    exact Or.inl ⟨r, h.symm⟩
  | none =>
    rw [hf] at h
    cases hp : prov.find? (fun p => ((f kwargs).lookup p).isNone) with
    | some p =>
      simp only [hp] at h
      simp at h
      exact Or.inr ⟨p, h.symm⟩
    | none =>
      simp only [hp] at h
      simp at h

/-! Step equations for `roundLoop` (the four branches of its body). -/

theorem roundLoop_eq_done {α : Type} (known : Dict α)
    (decls : String → UnitDecl) (impls : String → Dict α → Dict α)
    (i : Nat) (st : SchedState α) (h : ¬ i < st.funcnames.length) :
    roundLoop known decls impls i st = .ok st := by
  rw [roundLoop]
  simp [h]

theorem roundLoop_eq_queue {α : Type} (known : Dict α)
    (decls : String → UnitDecl) (impls : String → Dict α → Dict α)
    (i : Nat) (st : SchedState α) (h : i < st.funcnames.length)
    (hany : ((decls (st.funcnames.get ⟨i, h⟩)).requires.any
      (fun r => st.reqCopy.contains r)) = true) :
    roundLoop known decls impls i st =
      roundLoop known decls impls (i + 1)
        { st with funcQueue := st.funcQueue ++ [st.funcnames.get ⟨i, h⟩] } := by
  simp only [List.get_eq_getElem] at hany ⊢
  rw [roundLoop]
  simp only [dif_pos h, if_pos hany]

theorem roundLoop_eq_execError {α : Type} (known : Dict α)
    (decls : String → UnitDecl) (impls : String → Dict α → Dict α)
    (i : Nat) (st : SchedState α) (h : i < st.funcnames.length) (e : PyErr)
    (hany : ((decls (st.funcnames.get ⟨i, h⟩)).requires.any
      (fun r => st.reqCopy.contains r)) = false)
    (hw : wrappedCall (decls (st.funcnames.get ⟨i, h⟩)).requires
        (decls (st.funcnames.get ⟨i, h⟩)).provides
        (impls (st.funcnames.get ⟨i, h⟩))
        (buildArgs known st.extracted (decls (st.funcnames.get ⟨i, h⟩)).requires)
      = .error e) :
    roundLoop known decls impls i st = .error e := by
  simp only [List.get_eq_getElem] at hany hw
  have hany' : ¬ (((decls st.funcnames[i]).requires.any
      (fun r => st.reqCopy.contains r)) = true) := by
    simp only [hany]
    decide
  rw [roundLoop]
  simp only [dif_pos h, if_neg hany', hw]

theorem roundLoop_eq_execOk {α : Type} (known : Dict α)
    (decls : String → UnitDecl) (impls : String → Dict α → Dict α)
    (i : Nat) (st : SchedState α) (h : i < st.funcnames.length) (res : Dict α)
    (hany : ((decls (st.funcnames.get ⟨i, h⟩)).requires.any
      (fun r => st.reqCopy.contains r)) = false)
    (hw : wrappedCall (decls (st.funcnames.get ⟨i, h⟩)).requires
        (decls (st.funcnames.get ⟨i, h⟩)).provides
        (impls (st.funcnames.get ⟨i, h⟩))
        (buildArgs known st.extracted (decls (st.funcnames.get ⟨i, h⟩)).requires)
      = .ok res) :
    roundLoop known decls impls i st =
      roundLoop known decls impls (i + 1)
        { funcnames := st.funcnames.erase (st.funcnames.get ⟨i, h⟩)
          reqCopy := st.reqCopy.filter
            (fun x => ¬ (decls (st.funcnames.get ⟨i, h⟩)).provides.contains x)
          extracted := dictExtend st.extracted res
          funcQueue := st.funcQueue
          funcRounds := st.funcRounds
          currentRound := st.currentRound ++ [st.funcnames.get ⟨i, h⟩] } := by
  simp only [List.get_eq_getElem] at hany hw ⊢
  have hany' : ¬ (((decls st.funcnames[i]).requires.any
      (fun r => st.reqCopy.contains r)) = true) := by
    simp only [hany]
    decide
  rw [roundLoop]
  simp only [dif_pos h, if_neg hany', hw]

theorem roundLoop_error_classified {α : Type} (known : Dict α)
    (decls : String → UnitDecl) (impls : String → Dict α → Dict α) :
    ∀ (i : Nat) (st : SchedState α) (e : PyErr),
      roundLoop known decls impls i st = .error e →
      (∃ n, e = .missingRequiredParameter n) ∨
        (∃ n, e = .missingRequiredReturnKey n) := by
  intro i st
  induction i, st using roundLoop.induct known decls impls with
  | case1 i st h f reqs hcond ih =>
    intro e he
    rw [roundLoop_eq_queue known decls impls i st h (by
      simpa using hcond)] at he
    exact ih e he
  | case2 i st h f reqs provs hcond e0 hw =>
    intro e he
    rw [roundLoop_eq_execError known decls impls i st h e0 (by
      simp only [List.get_eq_getElem]
      simpa using hcond)
      (by simpa using hw)] at he
    have he0 : e0 = e := by injection he
    subst he0
    exact wrappedCall_error_classified _ _ _ _ _ hw
  | case3 i st h f reqs provs hcond res hw ih =>
    intro e he
    rw [roundLoop_eq_execOk known decls impls i st h res (by
      simp only [List.get_eq_getElem]
      simpa using hcond)
      (by simpa using hw)] at he
    exact ih e (by simpa using he)
  | case4 i st h =>
    intro e he
    rw [roundLoop_eq_done known decls impls i st h] at he
    cases he

theorem schedLoop_error_classified {α : Type} (known : Dict α)
    (decls : String → UnitDecl) (impls : String → Dict α → Dict α) :
    ∀ (fuel : Nat) (st : SchedState α) (e : PyErr),
      schedLoop known decls impls fuel st = some (.error e) →
      (∃ n, e = .missingRequiredParameter n) ∨
        (∃ n, e = .missingRequiredReturnKey n) := by
  intro fuel
  induction fuel with
  | zero => intro st e he; cases he
  | succ fuel ih =>
    intro st e he
    unfold schedLoop at he
    by_cases hemp : st.funcnames.isEmpty
    · simp [hemp] at he
    · simp only [hemp, if_false] at he
      cases hr : roundLoop known decls impls 0 st with
      | error e0 =>
        rw [hr] at he
        simp at he
        subst he
        exact roundLoop_error_classified known decls impls 0 st e0 hr
      | ok st' =>
        rw [hr] at he
        exact ih _ e he

/-! ## Claim C3: pre-scheduling validation -/

/-- C3 counterexample: with required names `["a", "b"]`, nothing known and
nothing provided, BOTH `"a"` and `"b"` are unresolvable
(`all_required − (known ∪ all_provided) = {"a", "b"}`), yet the raised
exception names only the first offender `"a"` — the loop of lines 174-179
raises on the first hit, and it is a plain `Exception`, not an
`UnresolvableDependencyError` (no such class exists in the code).  This
refutes "the raised error lists every offending name at once". -/
theorem validation_reports_only_first_missing :
    callCustomFunctions 1 ([] : Dict Int) ["a", "b"] [] []
      (fun _ => ⟨[], []⟩) (fun _ _ => [])
      = some (.error (.requiredParamNotProvided "a")) := by decide

/-- C3 amended: before any unit executes, `call_custom_functions` raises a
plain `Exception` if and only if
`all_required − (known ∪ all_provided)` is non-empty, but the exception
names only the FIRST offending name (in `all_required_params` order), not
all of them.  (Moreover `execute_functions_in_order` passes
`all_required_params` in place of `all_provided_params` — see
`executeFunctionsInOrder` — which makes the check vacuously pass through
that entry point.) -/
theorem validation_error_iff_unresolvable {α : Type} (fuel : Nat)
    (known : Dict α) (allRequiredParams allProvidedParams : List String)
    (funcnames : List String) (decls : String → UnitDecl)
    (impls : String → Dict α → Dict α) :
    (∀ p, ((allRequiredParams.filter (fun x => (known.lookup x).isNone)).filter
          (fun x => !(allProvidedParams.contains x))).head? = some p →
        callCustomFunctions fuel known allRequiredParams allProvidedParams
          funcnames decls impls
          = some (.error (.requiredParamNotProvided p))) ∧
    ((allRequiredParams.filter (fun x => (known.lookup x).isNone)).filter
          (fun x => !(allProvidedParams.contains x)) = [] →
      ∀ q, callCustomFunctions fuel known allRequiredParams allProvidedParams
          funcnames decls impls
          ≠ some (.error (.requiredParamNotProvided q))) := by
  constructor
  · intro p hp
    simp only [callCustomFunctions]
    rw [find?_eq_head_filter, hp]
  · intro hE q hcon
    simp only [callCustomFunctions] at hcon
    rw [find?_eq_head_filter, hE] at hcon
    simp only [List.head?_nil] at hcon
    cases hs : schedLoop known decls impls fuel
        ⟨funcnames, allRequiredParams.filter (fun x => (known.lookup x).isNone),
          [], [], [], []⟩ with
    | none => rw [hs] at hcon; cases hcon
    | some r =>
      cases r with
      | error e =>
        rw [hs] at hcon
        have he : e = .requiredParamNotProvided q := by
          simpa using hcon
        subst he
        rcases schedLoop_error_classified known decls impls fuel _ _ hs with
          ⟨n, hn⟩ | ⟨n, hn⟩ <;> cases hn
      | ok st =>
        rw [hs] at hcon
        simp at hcon

/-- C3 witness: one known name `"k"`, one unresolvable name `"z"`: the
validation exception fires and names `"z"`. -/
theorem validation_error_iff_unresolvable_witness :
    callCustomFunctions 1 [("k", (0 : Int))] ["k", "z"] [] []
      (fun _ => ⟨[], []⟩) (fun _ _ => [])
      = some (.error (.requiredParamNotProvided "z")) :=
  (validation_error_iff_unresolvable 1 [("k", (0 : Int))] ["k", "z"] [] []
    (fun _ => ⟨[], []⟩) (fun _ _ => [])).1 "z" (by decide)

/-! ## Claim C4: Known Values precedence -/

theorem buildArgs_go_not_mem {α : Type} (known extracted : Dict α) :
    ∀ (reqs : List String) (acc : Dict α) (r : String), r ∉ reqs →
      ((reqs.foldl (buildArgsStep known extracted) acc).lookup r
        = acc.lookup r) := by
  intro reqs
  induction reqs with
  | nil =>
    intro acc r _
    rfl
  | cons q rest ih =>
    intro acc r hr
    have hrq : r ≠ q := fun hcon => hr (hcon ▸ List.mem_cons_self q rest)
    have hrrest : r ∉ rest := fun hcon => hr (List.mem_cons_of_mem _ hcon)
    rw [List.foldl_cons, ih _ r hrrest]
    unfold buildArgsStep
    cases hk : known.lookup q with
    | some v => exact Dict.lookup_insert_ne _ _ _ _ hrq
    | none =>
      cases he : extracted.lookup q with
      | some v => exact Dict.lookup_insert_ne _ _ _ _ hrq
      | none => rfl

theorem buildArgs_go_known_mem {α : Type} (known extracted : Dict α) :
    ∀ (reqs : List String) (acc : Dict α) (r : String) (v : α), r ∈ reqs →
      known.lookup r = some v →
      ((reqs.foldl (buildArgsStep known extracted) acc).lookup r
        = some v) := by
  intro reqs
  induction reqs with
  | nil =>
    intro acc r v hr _
    cases hr
  | cons q rest ih =>
    intro acc r v hr hv
    by_cases hmem : r ∈ rest
    · rw [List.foldl_cons]
      exact ih _ r v hmem hv
    · have hrq : r = q := by
        cases hr with
        | head => rfl
        | tail _ hmem2 => exact absurd hmem2 hmem
      subst hrq
      rw [List.foldl_cons, buildArgs_go_not_mem known extracted rest _ r hmem]
      unfold buildArgsStep
      rw [hv]
      exact Dict.lookup_insert_self _ _ _

/-- C4 counterexample: the caller knows `x = 5`; units `u1` and `u2`
(scheduled in that order) both declare `provides = ["x"]` and return
`x = 77` and `x = 99` respectively.  After scheduling the returned Known
Values mapping (`all_extracted_features`) associates `"x"` with `99`: the
merge at lines 206-208 is a plain dict concatenation, so the LAST writer
wins among units, and the caller's value `5` does not appear in the result
at all — refuting both "first writer wins" and "the value associated with
x is still 5" for the scheduler's output mapping. -/
theorem known_values_last_writer_wins :
    callCustomFunctions 3 [("x", (5 : Int))] [] ["x"] ["u1", "u2"]
      (fun f => if f = "u1" then ⟨[], ["x"]⟩
        else if f = "u2" then ⟨[], ["x"]⟩ else ⟨[], []⟩)
      (fun f _ => if f = "u1" then [("x", 77)]
        else if f = "u2" then [("x", 99)] else [])
      = some (.ok [("x", 99)]) := by
  simp [callCustomFunctions, schedLoop, roundLoop, wrappedCall, buildArgs,
    buildArgsStep, dictExtend, Dict.insert, List.lookup_cons]

/-- C4 amended: what does hold is (a) the caller-supplied mapping itself is
never written, and argument assembly (lines 199-203) always prefers the
caller-known value of a required name over an extracted one, so a value the
caller supplied is never shadowed in any unit's arguments during the run;
and (b) merging a unit result into `all_extracted_features` overwrites an
earlier unit's value of the same name — last writer wins among units. -/
theorem argument_assembly_prefers_caller_known {α : Type} :
    (∀ (known extracted : Dict α) (reqs : List String) (r : String) (v : α),
        r ∈ reqs → known.lookup r = some v →
        (buildArgs known extracted reqs).lookup r = some v) ∧
    (∀ (d : Dict α) (k : String) (v : α),
        (dictExtend d [(k, v)]).lookup k = some v) := by
  constructor
  · intro known extracted reqs r v hr hv
    exact buildArgs_go_known_mem known extracted reqs [] r v hr hv
  · intro d k v
    show (d.insert k v).lookup k = some v
    exact Dict.lookup_insert_self d k v

/-- C4 witness: with `x` known as `5` and an extracted `x = 9`, the
assembled argument for `x` is the caller's `5`. -/
theorem argument_assembly_prefers_caller_known_witness :
    (buildArgs [("x", (5 : Int))] [("x", 9)] ["x"]).lookup "x" = some 5 :=
  (@argument_assembly_prefers_caller_known Int).1 [("x", 5)] [("x", 9)]
    ["x"] "x" 5 (by decide) rfl

/-! ## Claim C2: no stall detection — the scheduler loops forever -/

/-- Every still-pending unit has some required name still in
`all_required_params_copy`, i.e. no pending unit passes the runnability
check of line 192. -/
def allBlocked {α : Type} (decls : String → UnitDecl) (st : SchedState α) :
    Prop :=
  ∀ f ∈ st.funcnames,
    ((decls f).requires.any (fun r => st.reqCopy.contains r)) = true

theorem roundLoop_allBlocked {α : Type} (known : Dict α)
    (decls : String → UnitDecl) (impls : String → Dict α → Dict α) :
    ∀ (i : Nat) (st : SchedState α), allBlocked decls st →
      ∃ st', roundLoop known decls impls i st = .ok st' ∧
        st'.funcnames = st.funcnames ∧ st'.reqCopy = st.reqCopy := by
  intro i st
  induction i, st using roundLoop.induct known decls impls with
  | case1 i st h f reqs hcond ih =>
    intro hb
    obtain ⟨st', h1, h2, h3⟩ := ih hb
    refine ⟨st', ?_, h2, h3⟩
    rw [roundLoop_eq_queue known decls impls i st h (by simpa using hcond)]
    exact h1
  | case2 i st h f reqs provs hcond e hw =>
    intro hb
    exfalso
    have hmem : st.funcnames[i] ∈ st.funcnames := List.getElem_mem h
    exact hcond (by simpa using hb _ hmem)
  | case3 i st h f reqs provs hcond res hw ih =>
    intro hb
    exfalso
    have hmem : st.funcnames[i] ∈ st.funcnames := List.getElem_mem h
    exact hcond (by simpa using hb _ hmem)
  | case4 i st h =>
    intro hb
    exact ⟨st, roundLoop_eq_done known decls impls i st h, rfl, rfl⟩

theorem schedLoop_allBlocked_none {α : Type} (known : Dict α)
    (decls : String → UnitDecl) (impls : String → Dict α → Dict α) :
    ∀ (fuel : Nat) (st : SchedState α), st.funcnames ≠ [] →
      allBlocked decls st →
      schedLoop known decls impls fuel st = none := by
  intro fuel
  induction fuel with
  | zero =>
    intro st _ _
    rfl
  | succ fuel ih =>
    intro st hne hb
    unfold schedLoop
    have hemp : ¬ (st.funcnames.isEmpty = true) := by
      simpa [List.isEmpty_iff] using hne
    rw [if_neg hemp]
    obtain ⟨st', h1, h2, h3⟩ := roundLoop_allBlocked known decls impls 0 st hb
    rw [h1]
    apply ih
    · have : st'.funcnames = st.funcnames := h2
      simpa [this] using hne
    · intro f hf
      have hf' : f ∈ st'.funcnames := hf
      rw [h2] at hf'
      show ((decls f).requires.any (fun r => st'.reqCopy.contains r)) = true
      rw [h3]
      exact hb f hf'

/-- Declaration table of the two-unit mutual dependency cycle: unit `A`
requires `"y"` and provides `"x"`, unit `B` requires `"x"` and provides
`"y"`. -/
def declsCycle : String → UnitDecl := fun f =>
  if f = "A" then ⟨["y"], ["x"]⟩
  else if f = "B" then ⟨["x"], ["y"]⟩
  else ⟨[], []⟩

/-- C2: the scheduler does NOT terminate on a dependency cycle.  With units
`A` (requires `y`, provides `x`) and `B` (requires `x`, provides `y`) and
nothing externally known, validation passes (both names are provided by
some unit), and then every round of the `while len(funcnames) > 0` loop
(line 186) executes zero units while `funcnames` stays `["A", "B"]` — the
code contains no `SchedulingStallError` (no such class exists) and no
zero-progress check, so the Python loop runs forever.  Formally: for every
fuel bound, the embedded scheduler has not returned. -/
theorem scheduler_cycle_never_terminates :
    ∀ fuel : Nat,
      callCustomFunctions fuel ([] : Dict Int) ["y", "x"] ["x", "y"]
        ["A", "B"] declsCycle (fun _ _ => []) = none := by
  intro fuel
  simp only [callCustomFunctions]
  have hfind : (["y", "x"].filter
        (fun x => (List.lookup x ([] : Dict Int)).isNone)).find?
      (fun p => !(["x", "y"].contains p)) = none := by decide
  have hsched := schedLoop_allBlocked_none ([] : Dict Int) declsCycle
    (fun _ _ => []) fuel
    ⟨["A", "B"],
      ["y", "x"].filter (fun x => (List.lookup x ([] : Dict Int)).isNone),
      [], [], [], []⟩
    (by decide) (by unfold allBlocked; decide)
  simp only [hfind, hsched]

/-! ## Claim C1: which units run in which round -/

/-- A sound execution trace: each unit in the list has every one of its
required names either present in the caller-known mapping or among the
declared provides of a unit executed strictly earlier in the trace. -/
inductive SoundTrace {α : Type} (known : Dict α) (decls : String → UnitDecl) :
    List String → Prop where
  | nil : SoundTrace known decls []
  | snoc (t : List String) (f : String) :
      SoundTrace known decls t →
      (∀ r ∈ (decls f).requires,
        (known.lookup r).isSome = true ∨ ∃ g ∈ t, r ∈ (decls g).provides) →
      SoundTrace known decls (t ++ [f])

/-- The loop invariant tying `all_required_params_copy` to the execution
trace: a name is still in the copy iff it is a required name, not
caller-known, and not yet provided by any executed unit. -/
def ReqCopyInv {α : Type} (known : Dict α) (decls : String → UnitDecl)
    (allReq : List String) (st : SchedState α) : Prop :=
  ∀ x, x ∈ st.reqCopy ↔
    (x ∈ allReq ∧ (known.lookup x).isNone = true ∧
      ∀ g ∈ traceOf st, x ∉ (decls g).provides)

theorem roundLoop_invariants {α : Type} (known : Dict α)
    (decls : String → UnitDecl) (impls : String → Dict α → Dict α)
    (allReq : List String) (funcnames₀ : List String)
    (hreq : ∀ f, ∀ r ∈ (decls f).requires, r ∈ allReq) :
    ∀ (i : Nat) (st st' : SchedState α),
      roundLoop known decls impls i st = .ok st' →
      ReqCopyInv known decls allReq st →
      SoundTrace known decls (traceOf st) →
      (traceOf st ++ st.funcnames).Perm funcnames₀ →
      ReqCopyInv known decls allReq st' ∧
        SoundTrace known decls (traceOf st') ∧
        (traceOf st' ++ st'.funcnames).Perm funcnames₀ := by
  intro i st
  induction i, st using roundLoop.induct known decls impls with
  | case1 i st h f reqs hcond ih =>
    intro st' he hInv hTr hPerm
    rw [roundLoop_eq_queue known decls impls i st h (by simpa using hcond)]
      at he
    exact ih st' (by simpa using he) hInv hTr hPerm
  | case2 i st h f reqs provs hcond e hw =>
    intro st' he hInv hTr hPerm
    rw [roundLoop_eq_execError known decls impls i st h e (by
        simp only [List.get_eq_getElem]
        simpa using hcond)
      (by simpa using hw)] at he
    cases he
  | case3 i st h f reqs provs hcond res hw ih =>
    intro st' he hInv hTr hPerm
    rw [roundLoop_eq_execOk known decls impls i st h res (by
        simp only [List.get_eq_getElem]
        simpa using hcond)
      (by simpa using hw)] at he
    have hmem : st.funcnames[i] ∈ st.funcnames := List.getElem_mem h
    -- the executed unit passed the runnability check of line 192
    have hrun : ∀ r ∈ (decls st.funcnames[i]).requires, r ∉ st.reqCopy := by
      intro r hr
      have hcond' : ((decls st.funcnames[i]).requires.any
          (fun r => st.reqCopy.contains r)) = false := by
        simpa using hcond
      rw [List.any_eq_false] at hcond'
      have := hcond' r hr
      simpa using this
    -- hence each required name is known or provided by the trace so far
    have hsat : ∀ r ∈ (decls st.funcnames[i]).requires,
        (known.lookup r).isSome = true ∨
          ∃ g ∈ traceOf st, r ∈ (decls g).provides := by
      intro r hr
      have hnotin := hrun r hr
      rw [hInv r] at hnotin
      push_neg at hnotin
      by_cases hk : (known.lookup r).isNone = true
      · rcases hnotin (hreq _ r hr) hk with ⟨g, hg, hprov⟩
        exact Or.inr ⟨g, hg, hprov⟩
      · left
        rw [Option.isNone_iff_eq_none] at hk
        exact Option.isSome_iff_ne_none.mpr hk
    refine ih st' (by simpa using he) ?_ ?_ ?_
    · -- ReqCopyInv for the post-execution state
      intro x
      show x ∈ st.reqCopy.filter
          (fun y => ¬ (decls st.funcnames[i]).provides.contains y) ↔
        (x ∈ allReq ∧ (List.lookup x known).isNone = true ∧
          ∀ g ∈ st.funcRounds.flatten ++ (st.currentRound ++ [st.funcnames[i]]),
            x ∉ (decls g).provides)
      rw [List.mem_filter]
      have hInvx := hInv x
      simp only [traceOf] at hInvx
      constructor
      · rintro ⟨hx, hdec⟩
        have hnp : x ∉ (decls st.funcnames[i]).provides := by
          simpa using hdec
        obtain ⟨h1, h2, h3⟩ := hInvx.mp hx
        refine ⟨h1, h2, ?_⟩
        intro g hg
        simp only [List.mem_append, List.mem_singleton] at hg
        rcases hg with hg1 | hg2 | hg3
        · exact h3 g (List.mem_append_left _ hg1)
        · exact h3 g (List.mem_append_right _ hg2)
        · subst hg3
          exact hnp
      · rintro ⟨h1, h2, h3⟩
        have hnp : x ∉ (decls st.funcnames[i]).provides := by
          apply h3
          simp
        refine ⟨hInvx.mpr ⟨h1, h2, ?_⟩, by simpa using hnp⟩
        intro g hg
        apply h3
        simp only [List.mem_append, List.mem_singleton]
        rcases List.mem_append.mp hg with hg1 | hg2
        · exact Or.inl hg1
        · exact Or.inr (Or.inl hg2)
    · -- the extended trace is sound
      show SoundTrace known decls
        (st.funcRounds.flatten ++ (st.currentRound ++ [st.funcnames[i]]))
      rw [← List.append_assoc]
      exact SoundTrace.snoc _ _ hTr hsat
    · -- the trace plus the remaining pending units is still a permutation
      show ((st.funcRounds.flatten ++ (st.currentRound ++ [st.funcnames[i]])) ++
          st.funcnames.erase st.funcnames[i]).Perm funcnames₀
      have hperm1 : st.funcnames.Perm
          (st.funcnames[i] :: st.funcnames.erase st.funcnames[i]) :=
        List.perm_cons_erase hmem
      refine List.Perm.trans ?_ hPerm
      have heq : (st.funcRounds.flatten ++
            (st.currentRound ++ [st.funcnames[i]])) ++
            st.funcnames.erase st.funcnames[i]
          = (st.funcRounds.flatten ++ st.currentRound) ++
              (st.funcnames[i] :: st.funcnames.erase st.funcnames[i]) := by
        simp [List.append_assoc]
      rw [heq]
      exact List.Perm.append_left _ hperm1.symm
  | case4 i st h =>
    intro st' he hInv hTr hPerm
    rw [roundLoop_eq_done known decls impls i st h] at he
    obtain rfl : st = st' := by injection he
    exact ⟨hInv, hTr, hPerm⟩

theorem schedLoop_invariants {α : Type} (known : Dict α)
    (decls : String → UnitDecl) (impls : String → Dict α → Dict α)
    (allReq : List String) (funcnames₀ : List String)
    (hreq : ∀ f, ∀ r ∈ (decls f).requires, r ∈ allReq) :
    ∀ (fuel : Nat) (st st' : SchedState α),
      schedLoop known decls impls fuel st = some (.ok st') →
      ReqCopyInv known decls allReq st →
      SoundTrace known decls (traceOf st) →
      (traceOf st ++ st.funcnames).Perm funcnames₀ →
      SoundTrace known decls (traceOf st') ∧
        (traceOf st').Perm funcnames₀ ∧ st'.funcnames = [] := by
  intro fuel
  induction fuel with
  | zero =>
    intro st st' he
    cases he
  | succ fuel ih =>
    intro st st' he hInv hTr hPerm
    unfold schedLoop at he
    by_cases hemp : st.funcnames.isEmpty
    · rw [if_pos hemp] at he
      have hsome := Option.some.inj he
      obtain rfl : st = st' := Except.ok.inj hsome
      have hnil : st.funcnames = [] := List.isEmpty_iff.mp hemp
      refine ⟨hTr, ?_, hnil⟩
      have hp := hPerm
      rwa [hnil, List.append_nil] at hp
    · rw [if_neg hemp] at he
      cases hr : roundLoop known decls impls 0 st with
      | error e =>
        simp only [hr] at he
        simp at he
      | ok st1 =>
        simp only [hr] at he
        obtain ⟨hInv1, hTr1, hPerm1⟩ :=
          roundLoop_invariants known decls impls allReq funcnames₀ hreq
            0 st st1 hr hInv hTr hPerm
        have htrace : traceOf
            { st1 with funcRounds := st1.funcRounds ++ [st1.currentRound]
                       currentRound := [] } = traceOf st1 := by
          simp [traceOf]
        refine ih _ st' he ?_ ?_ ?_
        · intro x
          rw [htrace]
          exact hInv1 x
        · rw [htrace]
          exact hTr1
        · show (traceOf _ ++ st1.funcnames).Perm funcnames₀
          rwa [htrace]

/-- C1 amended: for a run of the scheduling loop that terminates
successfully (pending set emptied), the executed units — read off from
`func_rounds` in execution order — satisfy: every declared unit is executed
exactly once (the trace is a duplicate-free permutation of the unit names),
and at the moment each unit is executed, every name in its `requires` list
is either caller-known or among the declared `provides` of a unit executed
strictly BEFORE it — where "before" includes units executed earlier in the
SAME round (runnability is evaluated against the live intra-round state,
not the state at the round boundary), and never includes the unit itself
(its own provides are removed from the unresolved list only after its
runnability check).  The original claim's round granularity is refuted by
`scheduler_round_runnable_not_executed`. -/
theorem scheduler_executed_units_sound {α : Type} (fuel : Nat)
    (known : Dict α) (allReq funcnames : List String)
    (decls : String → UnitDecl) (impls : String → Dict α → Dict α)
    (st' : SchedState α)
    (hnd : funcnames.Nodup)
    (hreq : ∀ f, ∀ r ∈ (decls f).requires, r ∈ allReq)
    (h : schedLoop known decls impls fuel
        ⟨funcnames, allReq.filter (fun x => (known.lookup x).isNone),
          [], [], [], []⟩ = some (.ok st')) :
    SoundTrace known decls (traceOf st') ∧ (traceOf st').Perm funcnames ∧
      (traceOf st').Nodup ∧ st'.funcnames = [] := by
  have h0Inv : ReqCopyInv known decls allReq
      ⟨funcnames, allReq.filter (fun x => (known.lookup x).isNone),
        [], [], [], []⟩ := by
    intro x
    simp [traceOf, List.mem_filter]
  have h0Tr : SoundTrace known decls (traceOf
      (⟨funcnames, allReq.filter (fun x => (known.lookup x).isNone),
        [], [], [], []⟩ : SchedState α)) := SoundTrace.nil
  have h0Perm : ((traceOf
      (⟨funcnames, allReq.filter (fun x => (known.lookup x).isNone),
        [], [], [], []⟩ : SchedState α)) ++ funcnames).Perm funcnames := by
    simp [traceOf]
  obtain ⟨hTr, hPerm, hnil⟩ :=
    schedLoop_invariants known decls impls allReq funcnames hreq
      fuel _ st' h h0Inv h0Tr h0Perm
  exact ⟨hTr, hPerm, (hPerm.nodup_iff).mpr hnd, hnil⟩

/-- Declaration table for the C1 counterexample: `A` provides `"x"`, `D` is
independent, `B` requires `"x"`. -/
def declsChain : String → UnitDecl := fun f =>
  if f = "A" then ⟨[], ["x"]⟩
  else if f = "B" then ⟨["x"], []⟩
  else ⟨[], []⟩

/-- Implementations for the C1 counterexample: `A` returns `{"x": 1}`, the
others return `{}`. -/
def implsChain : String → Dict Int → Dict Int := fun f _ =>
  if f = "A" then [("x", 1)] else []

/-- C1 counterexample: units `["A", "D", "B"]` with `A` providing `"x"`,
`D` requiring nothing, `B` requiring `"x"`, nothing caller-known
(`all_required = ["x"]`, so the initial copy is `["x"]`).  The recorded
rounds are `func_rounds = {"0": ["A", "B"], "1": ["D"]}`:

* `B` executes in the FIRST round even though `"x"` was not present in
  Known Values at the start of that round (the caller knows nothing, no
  earlier round exists, and `List.lookup "x" [] = none`) — runnability is
  evaluated against the live intra-round state, refuting "runnable iff
  every required name is present in Known Values (caller-known values plus
  outputs of units executed in earlier rounds)";
* `D` is runnable in the first round (it requires nothing at all) yet is
  NOT executed in that round — `funcnames.remove` during iteration makes
  the loop skip it — refuting "every unit found runnable in a round is
  executed in that round". -/
theorem scheduler_round_runnable_not_executed :
    (schedLoop ([] : Dict Int) declsChain implsChain 5
        ⟨["A", "D", "B"], ["x"], [], [], [], []⟩
      = some (.ok ⟨[], [], [("x", 1)], [], [["A", "B"], ["D"]], []⟩))
    ∧ (declsChain "D").requires = []
    ∧ (declsChain "B").requires = ["x"]
    ∧ List.lookup "x" ([] : Dict Int) = none := by
  refine ⟨?_, by decide, by decide, rfl⟩
  simp [schedLoop, roundLoop, declsChain, implsChain, wrappedCall, buildArgs,
    buildArgsStep, dictExtend, Dict.insert, List.lookup_cons]

/-- Declaration table for the C1 witness: a single unit providing `"x"`. -/
def declsSingle : String → UnitDecl := fun f =>
  if f = "A" then ⟨[], ["x"]⟩ else ⟨[], []⟩

/-- C1 witness: a one-unit run; the theorem applies with its hypotheses
discharged concretely and yields a sound, duplicate-free complete trace. -/
theorem scheduler_executed_units_sound_witness :
    SoundTrace ([] : Dict Int) declsSingle
        (traceOf (⟨[], [], [("x", (1 : Int))], [], [["A"]], []⟩ :
          SchedState Int)) ∧
      (traceOf (⟨[], [], [("x", (1 : Int))], [], [["A"]], []⟩ :
        SchedState Int)).Perm ["A"] ∧
      (traceOf (⟨[], [], [("x", (1 : Int))], [], [["A"]], []⟩ :
        SchedState Int)).Nodup ∧
      (⟨[], [], [("x", (1 : Int))], [], [["A"]], []⟩ :
        SchedState Int).funcnames = [] :=
  scheduler_executed_units_sound 2 [] [] ["A"] declsSingle
    (fun _ _ => [("x", 1)]) ⟨[], [], [("x", 1)], [], [["A"]], []⟩
    (by decide)
    (by
      intro f r hr
      unfold declsSingle at hr
      by_cases hf : f = "A" <;> simp [hf] at hr)
    (by
      simp [schedLoop, roundLoop, declsSingle, wrappedCall, buildArgs,
        buildArgsStep, dictExtend, Dict.insert, List.lookup_cons])

/-! ## Claim C6: extractor error behaviour -/

/-- C6 counterexample: a recognized annotation line whose following line is
not a function header (`"x = 1"` contains no `"def "`) is SILENTLY skipped
— extraction succeeds with an empty declaration table instead of producing
a parse error, because the pair is only processed when BOTH
`"@myFeature" in lines[i]` and `"def " in lines[i+1]` hold (line 127). -/
theorem annot_without_def_silently_skipped :
    parseForReqProvParams
      ["@myFeature(requires=['x'], provides=['y'])", "x = 1"]
      (fun _ => some [])
      = .ok ⟨[], [], []⟩ := by decide

/-- C6 amended: a line pair is processed only when the first line contains
`"@myFeature"` and the second contains `"def "`; any other pair — including
a recognized annotation whose next line is not a function header — is
skipped with no effect and no error.  When a pair IS processed but the
annotation does not match the template (e.g. its lists are not parseable),
the run aborts with an `AttributeError` (`.named` on `None`), an
unclassified crash rather than a parse error identifying the line. -/
theorem extractor_pair_step_behavior
    (evalF : String → Option (List String)) (a b : String) (acc : ParseAcc) :
    ((pyContains a "@myFeature" = false ∨ pyContains b "def " = false) →
      ∀ st : Except PyErr ParseAcc, parseStep evalF st (a, b) = st) ∧
    (pyContains a "@myFeature" = true → pyContains b "def " = true →
      parseAnnotLine a = none →
      parseStep evalF (.ok acc) (a, b) =
        .error (.attributeError "NoneType has no attribute named")) := by
  constructor
  · intro hcond st
    have hc : (pyContains a "@myFeature" && pyContains b "def ") = false := by
      rcases hcond with h1 | h1 <;> simp [h1]
    cases st with
    | error e => rfl
    | ok x =>
      simp only [parseStep, hc]
      rfl
  · intro h1 h2 hann
    have hcc : (pyContains a "@myFeature" && pyContains b "def ") = true := by
      simp [h1, h2]
    simp only [parseStep, hcc, hann]
    simp

/-- C6 witness: the amended step behaviour at a concrete skipped pair. -/
theorem extractor_pair_step_behavior_witness :
    parseStep (fun _ => some []) (.ok ⟨[], [], []⟩)
      ("@myFeature(requires=['x'], provides=['y'])", "x = 1")
      = .ok ⟨[], [], []⟩ :=
  (extractor_pair_step_behavior (fun _ => some [])
    "@myFeature(requires=['x'], provides=['y'])" "x = 1" ⟨[], [], []⟩).1
    (Or.inr (by decide)) _

/-! ## Claim C7: extraction evaluates expressions from the script -/

/-- C7 counterexample: extraction is NOT a function of the script's syntax
alone, and it DOES evaluate expressions taken from the script text: the
annotation field `requires=get_reqs()` is passed to Python `eval`, so two
evaluation environments (two `eval` oracles) that differ on the
script-supplied expression `"get_reqs()"` produce different declaration
tables from the SAME script text.  (This is exactly the
arbitrary-code-evaluation surface the code's lines 134-141 expose.) -/
theorem extraction_result_depends_on_evaluator :
    parseForReqProvParams
        ["@myFeature(requires=get_reqs(), provides=['y'])", "def f(t):"]
        (fun s => if s = "get_reqs()" then some ["a"]
          else if s = "['y']" then some ["y"] else none)
      ≠ parseForReqProvParams
        ["@myFeature(requires=get_reqs(), provides=['y'])", "def f(t):"]
        (fun s => if s = "get_reqs()" then some ["b"]
          else if s = "['y']" then some ["y"] else none) := by decide

theorem annotFieldsStep_eq_append (acc : List String)
    (pair : String × String) :
    annotFieldsStep acc pair = acc ++ annotFieldsStep [] pair := by
  unfold annotFieldsStep
  by_cases hc : (pyContains pair.1 "@myFeature" && pyContains pair.2 "def ")
      = true
  · rw [if_pos hc, if_pos hc]
    cases hann : parseAnnotLine pair.1 with
    | none => simp
    | some rp => simp
  · rw [if_neg hc, if_neg hc]
    simp

theorem foldl_annotFieldsStep_append (pairs : List (String × String)) :
    ∀ acc : List String,
      pairs.foldl annotFieldsStep acc = acc ++ pairs.foldl annotFieldsStep [] := by
  induction pairs with
  | nil => intro acc; simp
  | cons pr rest ih =>
    intro acc
    rw [List.foldl_cons, List.foldl_cons, ih (annotFieldsStep acc pr),
      ih (annotFieldsStep [] pr), annotFieldsStep_eq_append acc pr,
      List.append_assoc]

theorem parseSteps_agree (e₁ e₂ : String → Option (List String)) :
    ∀ (pairs : List (String × String)) (acc : Except PyErr ParseAcc),
      (∀ s ∈ pairs.foldl annotFieldsStep [], e₁ s = e₂ s) →
      pairs.foldl (parseStep e₁) acc = pairs.foldl (parseStep e₂) acc := by
  intro pairs
  induction pairs with
  | nil =>
    intro acc _
    rfl
  | cons pr rest ih =>
    intro acc hagree
    have hrest : ∀ s ∈ rest.foldl annotFieldsStep [], e₁ s = e₂ s := by
      intro s hs
      apply hagree
      rw [List.foldl_cons, foldl_annotFieldsStep_append rest
        (annotFieldsStep [] pr)]
      exact List.mem_append_right _ hs
    have hstep : parseStep e₁ acc pr = parseStep e₂ acc pr := by
      cases acc with
      | error e => rfl
      | ok a =>
        by_cases hc : (pyContains pr.1 "@myFeature" &&
            pyContains pr.2 "def ") = true
        · cases hann : parseAnnotLine pr.1 with
          | none => simp only [parseStep, hc, hann]
          | some rp =>
            obtain ⟨r, p⟩ := rp
            have hfields : (pr :: rest).foldl annotFieldsStep []
                = [r, p] ++ rest.foldl annotFieldsStep [] := by
              rw [List.foldl_cons, foldl_annotFieldsStep_append rest
                (annotFieldsStep [] pr)]
              have hone : annotFieldsStep [] pr = [r, p] := by
                unfold annotFieldsStep
                rw [if_pos hc, hann]
                rfl
              rw [hone]
            have hr : e₁ r = e₂ r := by
              apply hagree
              rw [hfields]
              simp
            have hp : e₁ p = e₂ p := by
              apply hagree
              rw [hfields]
              simp
            simp only [parseStep, hc, hann, hr, hp]
        · have hc' : (pyContains pr.1 "@myFeature" &&
              pyContains pr.2 "def ") = false := by
            simpa using hc
          simp only [parseStep, hc']
          simp
    rw [List.foldl_cons, List.foldl_cons, hstep]
    exact ih _ hrest

/-- C7 amended: extraction never calls the declared feature functions, but
it does pass the `requires`/`provides` expression texts of each matched
annotation to Python `eval`; its result is a function of the script's
syntax TOGETHER WITH the evaluator's behaviour on exactly those extracted
expression strings — two evaluation environments that agree on every
extracted field string produce identical extraction results. -/
theorem extraction_depends_only_on_annot_fields (lines : List String)
    (e₁ e₂ : String → Option (List String))
    (h : ∀ s ∈ annotFields lines, e₁ s = e₂ s) :
    parseForReqProvParams lines e₁ = parseForReqProvParams lines e₂ :=
  parseSteps_agree e₁ e₂ (lines.zip lines.tail) (.ok ⟨[], [], []⟩) h

/-- C7 witness: two oracles that differ on `"junk"` (a string that is not
an extracted annotation field of this script) but agree on the two
extracted fields yield identical extraction results. -/
theorem extraction_depends_only_on_annot_fields_witness :
    parseForReqProvParams
        ["@myFeature(requires=['x'], provides=['y'])", "def f(t):"]
        (fun s => if s = "junk" then some ["j"] else some [s])
      = parseForReqProvParams
        ["@myFeature(requires=['x'], provides=['y'])", "def f(t):"]
        (fun s => some [s]) :=
  extraction_depends_only_on_annot_fields
    ["@myFeature(requires=['x'], provides=['y'])", "def f(t):"]
    (fun s => if s = "junk" then some ["j"] else some [s])
    (fun s => some [s]) (by decide)

/-! ## Claim C9: duplicate declarations -/

/-- C9 counterexample: a script with two annotated declarations both named
`f` extracts WITHOUT failing, and the resulting table holds only the later
declaration (`requires=['c'], provides=['d']`) — plain dict assignment at
line 133 silently replaced the earlier one. -/
theorem duplicate_decl_silently_replaced :
    parseForReqProvParams
      ["@myFeature(requires=['a'], provides=['b'])", "def f(x):",
       "@myFeature(requires=['c'], provides=['d'])", "def f(x):"]
      (fun s => if s = "['a']" then some ["a"]
        else if s = "['b']" then some ["b"]
        else if s = "['c']" then some ["c"]
        else if s = "['d']" then some ["d"] else none)
      = .ok ⟨[("f", ⟨["c"], ["d"]⟩)], ["a", "c"], ["b", "d"]⟩ := by decide

/-- C9 amended: extraction never fails on a duplicate name; processing a
matched declaration stores it with plain dict assignment, so the table
afterwards maps the name to the NEW declaration, silently replacing any
earlier declaration of the same name. -/
theorem extractor_insert_replaces_same_name
    (evalF : String → Option (List String)) (acc : ParseAcc)
    (a b r p fname : String) (reqs provs : List String)
    (hc1 : pyContains a "@myFeature" = true)
    (hc2 : pyContains b "def " = true)
    (hann : parseAnnotLine a = some (r, p))
    (her : evalF r = some reqs) (hep : evalF p = some provs)
    (hdef : parseDefLine b = some fname) :
    ∃ acc', parseStep evalF (.ok acc) (a, b) = .ok acc' ∧
      acc'.table.lookup fname = some ⟨reqs, provs⟩ := by
  refine ⟨⟨acc.table.insert fname ⟨reqs, provs⟩,
    pyListSet (acc.allRequired ++ pyListSet reqs),
    pyListSet (acc.allProvided ++ pyListSet provs)⟩, ?_, ?_⟩
  · have hcc : (pyContains a "@myFeature" && pyContains b "def ") = true := by
      simp [hc1, hc2]
    simp only [parseStep, hcc, hann, her, hep, hdef]
    simp
  · exact Dict.lookup_insert_self _ _ _

/-- C9 witness: the amended behaviour at a concrete duplicate: a table
already holding `f ↦ (requires=['a'], provides=['b'])` processes a second
declaration of `f` and afterwards maps `f` to the new declaration. -/
theorem extractor_insert_replaces_same_name_witness :
    ∃ acc', parseStep
        (fun s => if s = "['c']" then some ["c"]
          else if s = "['d']" then some ["d"] else none)
        (.ok ⟨[("f", ⟨["a"], ["b"]⟩)], ["a"], ["b"]⟩)
        ("@myFeature(requires=['c'], provides=['d'])", "def f(x):")
        = .ok acc' ∧
      acc'.table.lookup "f" = some ⟨["c"], ["d"]⟩ :=
  extractor_insert_replaces_same_name
    (fun s => if s = "['c']" then some ["c"]
      else if s = "['d']" then some ["d"] else none)
    ⟨[("f", ⟨["a"], ["b"]⟩)], ["a"], ["b"]⟩
    "@myFeature(requires=['c'], provides=['d'])" "def f(x):"
    "['c']" "['d']" "f" ["c"] ["d"]
    (by decide) (by decide) (by decide) (by decide) (by decide) (by decide)

/-! ## Claim C10: `generate_custom_features` mutation of the caller's dict -/

theorem gcfInsertT_lookup_t {α : Type} (t : α) (known : Dict α) :
    (gcfInsertT t known).lookup "t" = some ((known.lookup "t").getD t) := by
  unfold gcfInsertT
  cases hv : known.lookup "t" with
  | none => simp [hv, Dict.lookup_insert_self]
  | some v => simp [hv]

theorem gcfInsertT_lookup_ne {α : Type} (t : α) (known : Dict α)
    (k : String) (hk : k ≠ "t") :
    (gcfInsertT t known).lookup k = known.lookup k := by
  unfold gcfInsertT
  by_cases h : (known.lookup "t").isNone
  · rw [if_pos h]
    exact Dict.lookup_insert_ne _ _ _ _ hk
  · rw [if_neg h]

theorem gcfInsertM_lookup_m {α : Type} (m : α) (known : Dict α) :
    (gcfInsertM m known).lookup "m" = some ((known.lookup "m").getD m) := by
  unfold gcfInsertM
  cases hv : known.lookup "m" with
  | none => simp [hv, Dict.lookup_insert_self]
  | some v => simp [hv]

theorem gcfInsertM_lookup_ne {α : Type} (m : α) (known : Dict α)
    (k : String) (hk : k ≠ "m") :
    (gcfInsertM m known).lookup k = known.lookup k := by
  unfold gcfInsertM
  by_cases h : (known.lookup "m").isNone
  · rw [if_pos h]
    exact Dict.lookup_insert_ne _ _ _ _ hk
  · rw [if_neg h]

theorem gcfInsertE_lookup_e {α : Type} (length : α → Nat) (e : Option α)
    (m : α) (known : Dict α) :
    (gcfInsertE length e m known).lookup "e" =
      match known.lookup "e", e with
      | some v, _ => some v
      | none, some ev => if length ev = length m then some ev else none
      | none, none => none := by
  cases e with
  | none =>
    simp only [gcfInsertE]
    cases hv : known.lookup "e" with
    | none => simp
    | some v => simp
  | some ev =>
    simp only [gcfInsertE]
    cases hv : known.lookup "e" with
    | none =>
      by_cases hl : length ev = length m
      · rw [if_pos (by simp [hl])]
        simp [hl, Dict.lookup_insert_self]
      · rw [if_neg (by simp [hl])]
        simp [hl, hv]
    | some v =>
      rw [if_neg (by simp)]
      simp [hv]

theorem gcfInsertE_lookup_ne {α : Type} (length : α → Nat) (e : Option α)
    (m : α) (known : Dict α) (k : String) (hk : k ≠ "e") :
    (gcfInsertE length e m known).lookup k = known.lookup k := by
  cases e with
  | none => rfl
  | some ev =>
    simp only [gcfInsertE]
    by_cases h : length ev = length m ∧ (known.lookup "e").isNone
    · rw [if_pos h]
      exact Dict.lookup_insert_ne _ _ _ _ hk
    · rw [if_neg h]

theorem gcfArrayStep_lookup_self {α : Type} (npArray : α → α) (d : Dict α)
    (k : String) :
    (gcfArrayStep npArray d k).lookup k = (d.lookup k).map npArray := by
  unfold gcfArrayStep
  cases hv : d.lookup k with
  | none => simp [hv]
  | some v => simp [hv, Dict.lookup_insert_self]

theorem gcfArrayStep_lookup_ne {α : Type} (npArray : α → α) (d : Dict α)
    (k k' : String) (hk : k' ≠ k) :
    (gcfArrayStep npArray d k).lookup k' = d.lookup k' := by
  unfold gcfArrayStep
  cases hv : d.lookup k with
  | none => rfl
  | some v => exact Dict.lookup_insert_ne _ _ _ _ hk

/-- C10: `generate_custom_features` mutates the caller's
`features_already_known` mapping in place (modelled here as the function
from the mapping to its mutated value, the same object in Python): `"t"`
and `"m"` are inserted when absent; `"e"` is inserted when the parameter
`e` is non-`None`, has the same `len` as the parameter `m`, and the key is
absent; then every present `"t"`/`"m"`/`"e"` value — pre-existing or just
inserted — is replaced by its `np.array` conversion; all other keys are
untouched.  When the argument is omitted, one shared default dict threads
through successive calls and accumulates these mutations: after two calls
sharing the default, `"t"` holds the FIRST call's `t`, array-converted once
per call. -/
theorem generate_custom_features_mutation_spec {α : Type} (length : α → Nat)
    (npArray : α → α) (t m : α) (e : Option α) (known : Dict α) :
    ((generateCustomFeaturesMutate length npArray t m e known).lookup "t"
        = some (npArray ((known.lookup "t").getD t))) ∧
    ((generateCustomFeaturesMutate length npArray t m e known).lookup "m"
        = some (npArray ((known.lookup "m").getD m))) ∧
    ((generateCustomFeaturesMutate length npArray t m e known).lookup "e"
        = (match known.lookup "e", e with
           | some v, _ => some v
           | none, some ev => if length ev = length m then some ev else none
           | none, none => none).map npArray) ∧
    (∀ k, k ≠ "t" → k ≠ "m" → k ≠ "e" →
      (generateCustomFeaturesMutate length npArray t m e known).lookup k
        = known.lookup k) ∧
    (∀ t₂ m₂ : α,
      (generateCustomFeaturesSharedDefault length npArray
          [(t, m, none), (t₂, m₂, none)]).lookup "t"
        = some (npArray (npArray t))) := by
  have hfold : ∀ d : Dict α, ["t", "m", "e"].foldl (gcfArrayStep npArray) d
      = gcfArrayStep npArray
          (gcfArrayStep npArray (gcfArrayStep npArray d "t") "m") "e" := by
    intro d
    rfl
  have ht : ∀ (t' m' : α) (e' : Option α) (kn : Dict α),
      (generateCustomFeaturesMutate length npArray t' m' e' kn).lookup "t"
        = some (npArray ((kn.lookup "t").getD t')) := by
    intro t' m' e' kn
    unfold generateCustomFeaturesMutate
    rw [hfold, gcfArrayStep_lookup_ne _ _ _ _ (by decide),
      gcfArrayStep_lookup_ne _ _ _ _ (by decide),
      gcfArrayStep_lookup_self,
      gcfInsertE_lookup_ne _ _ _ _ _ (by decide),
      gcfInsertM_lookup_ne _ _ _ (by decide),
      gcfInsertT_lookup_t]
    rfl
  refine ⟨ht t m e known, ?_, ?_, ?_, ?_⟩
  · unfold generateCustomFeaturesMutate
    rw [hfold, gcfArrayStep_lookup_ne _ _ _ _ (by decide),
      gcfArrayStep_lookup_self,
      gcfArrayStep_lookup_ne _ _ _ _ (by decide),
      gcfInsertE_lookup_ne _ _ _ _ _ (by decide),
      gcfInsertM_lookup_m,
      gcfInsertT_lookup_ne _ _ _ (by decide)]
    rfl
  · unfold generateCustomFeaturesMutate
    rw [hfold, gcfArrayStep_lookup_self,
      gcfArrayStep_lookup_ne _ _ _ _ (by decide),
      gcfArrayStep_lookup_ne _ _ _ _ (by decide),
      gcfInsertE_lookup_e,
      gcfInsertM_lookup_ne _ _ _ (by decide),
      gcfInsertT_lookup_ne _ _ _ (by decide)]
  · intro k hkt hkm hke
    unfold generateCustomFeaturesMutate
    rw [hfold, gcfArrayStep_lookup_ne _ _ _ _ hke,
      gcfArrayStep_lookup_ne _ _ _ _ hkm,
      gcfArrayStep_lookup_ne _ _ _ _ hkt,
      gcfInsertE_lookup_ne _ _ _ _ _ hke,
      gcfInsertM_lookup_ne _ _ _ hkm,
      gcfInsertT_lookup_ne _ _ _ hkt]
  · intro t₂ m₂
    have hinner : (generateCustomFeaturesMutate length npArray t m none
        ([] : Dict α)).lookup "t" = some (npArray t) := by
      rw [ht t m none ([] : Dict α)]
      rfl
    have hsd : generateCustomFeaturesSharedDefault length npArray
        [(t, m, none), (t₂, m₂, none)]
        = generateCustomFeaturesMutate length npArray t₂ m₂ none
            (generateCustomFeaturesMutate length npArray t m none []) := by
      simp only [generateCustomFeaturesSharedDefault, List.foldl]
    rw [hsd, ht t₂ m₂ none
      (generateCustomFeaturesMutate length npArray t m none []), hinner]
    rfl

/-- C10 witness: a concrete mutation run (with `np.array` modelled as
`+ 1`): the pre-existing meta-feature `"q"` is untouched. -/
theorem generate_custom_features_mutation_spec_witness :
    (generateCustomFeaturesMutate (fun _ : Int => 0) (fun v : Int => v + 1)
        1 2 none [("q", (7 : Int))]).lookup "q" = some 7 :=
  (generate_custom_features_mutation_spec (fun _ : Int => 0)
    (fun v : Int => v + 1) 1 2 none [("q", 7)]).2.2.2.1 "q"
    (by decide) (by decide) (by decide)

end CustomFeatureTools
